import Mathlib

/-!
Verification of the caching and token-usage subsystems of the
`opencti-ai-agent` repository, as a shallow embedding in Lean 4.

The embedding covers:
* `memory/cache_store.py` — `CacheStore`, the durable file-backed map
  keyed by a SHA-256 digest of `"{agent_name}::{task}"`;
* `memory/cache_manager.py` — the process-wide registry of named
  `CacheStore` instances;
* `core/data_pipeline/ingestion/opencti/cache.py` — the ephemeral
  TTL cache with prefix invalidation;
* `core/token_usage/` — the token-usage ledger (`token_usage.py`),
  its validators (`validators.py`), its storage pruning
  (`storage.py`), and the estimator (`estimator.py`).

Python dicts are modelled as insertion-ordered association lists
over `String` keys; timestamps are modelled as integers (seconds);
Python `int` token counts are modelled as `Int`.  Disk persistence
is modelled by carrying the serialized map as the file's contents
(JSON encoding/decoding is performed by the external `json` library
and is modelled as the identity on well-formed files; a corrupt or
absent file is a separate constructor).
-/

/-- Lookup in an insertion-ordered association list, mirroring Python's
`d.get(k)` / `d[k]`: the value at the unique binding of `k` (Python dicts
have unique keys; ours return the first binding). -/
def dictGet {β : Type} (k : String) : List (String × β) → Option β
  | [] => none
  | (k₁, v) :: rest => if k₁ = k then some v else dictGet k rest

/-- Assignment `d[k] = v` on an insertion-ordered association list:
replace the existing binding in place, else append at the end. -/
def dictInsert {β : Type} (k : String) (v : β) : List (String × β) → List (String × β)
  | [] => [(k, v)]
  | (k₁, v₁) :: rest =>
    if k₁ = k then (k, v) :: rest else (k₁, v₁) :: dictInsert k v rest

/-- Deletion `del d[k]` (removes every binding of `k`; a Python dict
has at most one). -/
def dictEraseAll {β : Type} (k : String) (l : List (String × β)) : List (String × β) :=
  l.filter fun q => decide (q.1 ≠ k)

theorem dictGet_insert_self {β : Type} (k : String) (v : β) (l : List (String × β)) :
    dictGet k (dictInsert k v l) = some v := by
  induction l with
  | nil => simp [dictGet, dictInsert]
  | cons p rest ih =>
    obtain ⟨k₁, v₁⟩ := p
    by_cases h : k₁ = k
    · simp [dictGet, dictInsert, h]
    · simp [dictGet, dictInsert, h, ih]

theorem dictGet_mem {β : Type} {k : String} {v : β} {l : List (String × β)}
    (h : dictGet k l = some v) : (k, v) ∈ l := by
  induction l with
  | nil => simp [dictGet] at h
  | cons p rest ih =>
    obtain ⟨k₁, v₁⟩ := p
    by_cases hk : k₁ = k
    · simp [dictGet, hk] at h
      subst hk h
      exact List.mem_cons_self _ _
    · simp [dictGet, hk] at h
      exact List.mem_cons_of_mem _ (ih h)

theorem mem_dictInsert {β : Type} {k : String} {v : β} {q : String × β}
    {l : List (String × β)} (h : q ∈ dictInsert k v l) : q = (k, v) ∨ q ∈ l := by
  induction l with
  | nil => simpa [dictInsert] using h
  | cons p rest ih =>
    obtain ⟨k₁, v₁⟩ := p
    by_cases hk : k₁ = k
    · simp [dictInsert, hk] at h
      rcases h with h | h
      · exact Or.inl h
      · exact Or.inr (List.mem_cons_of_mem _ h)
    · simp [dictInsert, hk] at h
      rcases h with h | h
      · exact Or.inr (by simp [h])
      · rcases ih h with h' | h'
        · exact Or.inl h'
        · exact Or.inr (List.mem_cons_of_mem _ h')

/-- If every binding of `k` present in `l` fails the filter, then `k` is
absent after filtering. -/
theorem dictGet_filter_none {β : Type} {k : String} {p : String × β → Bool}
    {l : List (String × β)} (h : ∀ v, (k, v) ∈ l → p (k, v) = false) :
    dictGet k (l.filter p) = none := by
  induction l with
  | nil => simp [dictGet]
  | cons q rest ih =>
    obtain ⟨k₁, v₁⟩ := q
    have hrest : ∀ v, (k, v) ∈ rest → p (k, v) = false := fun v hv =>
      h v (List.mem_cons_of_mem _ hv)
    by_cases hk : k₁ = k
    · subst hk
      have : p (k₁, v₁) = false := h v₁ (List.mem_cons_self _ _)
      simp [List.filter, this, ih hrest]
    · by_cases hp : p (k₁, v₁)
      · simp [List.filter, hp, dictGet, hk, ih hrest]
      · simp [List.filter, Bool.of_not_eq_true hp, ih hrest]

/-- If every binding of `k` passes the filter, lookup is unchanged by
filtering. -/
theorem dictGet_filter_all {β : Type} {k : String} {p : String × β → Bool}
    {l : List (String × β)} (h : ∀ v, (k, v) ∈ l → p (k, v) = true) :
    dictGet k (l.filter p) = dictGet k l := by
  induction l with
  | nil => simp
  | cons q rest ih =>
    obtain ⟨k₁, v₁⟩ := q
    have hrest : ∀ v, (k, v) ∈ rest → p (k, v) = true := fun v hv =>
      h v (List.mem_cons_of_mem _ hv)
    by_cases hk : k₁ = k
    · subst hk
      have : p (k₁, v₁) = true := h v₁ (List.mem_cons_self _ _)
      simp [List.filter, this, dictGet]
    · by_cases hp : p (k₁, v₁)
      · simp [List.filter, hp, dictGet, hk, ih hrest]
      · simp [List.filter, Bool.of_not_eq_true hp, dictGet, hk, ih hrest]

/-- The first binding of `k` survives a filter it satisfies, and stays
first. -/
theorem dictGet_filter_keep {β : Type} {k : String} {v : β} {p : String × β → Bool}
    {l : List (String × β)} (h : dictGet k l = some v) (hp : p (k, v) = true) :
    dictGet k (l.filter p) = some v := by
  induction l with
  | nil => simp [dictGet] at h
  | cons q rest ih =>
    obtain ⟨k₁, v₁⟩ := q
    by_cases hk : k₁ = k
    · subst hk
      simp [dictGet] at h
      subst h
      simp [List.filter, hp, dictGet]
    · simp [dictGet, hk] at h
      by_cases hq : p (k₁, v₁)
      · simp [List.filter, hq, dictGet, hk, ih h]
      · simp [List.filter, Bool.of_not_eq_true hq, ih h]

/-- With unique keys, any binding of `k` carries the looked-up value. -/
theorem dictGet_unique {β : Type} {k : String} {v v' : β} {l : List (String × β)}
    (hnd : (l.map Prod.fst).Nodup) (h : dictGet k l = some v)
    (hmem : (k, v') ∈ l) : v' = v := by
  induction l with
  | nil => simp at hmem
  | cons q rest ih =>
    obtain ⟨k₁, v₁⟩ := q
    simp only [List.map_cons, List.nodup_cons] at hnd
    by_cases hk : k₁ = k
    · subst hk
      simp [dictGet] at h
      rcases List.mem_cons.mp hmem with h' | h'
      · rw [Prod.mk.injEq] at h'
        rw [h'.2, ← h]
      · exact absurd (List.mem_map.mpr ⟨(k₁, v'), h', rfl⟩) hnd.1
    · rcases List.mem_cons.mp hmem with h' | h'
      · rw [Prod.mk.injEq] at h'
        exact absurd h'.1.symm hk
      · simp [dictGet, hk] at h
        exact ih hnd.2 h h'

/-! ## SHA-256 (`hashlib.sha256`, as used by `CacheStore.compute_hash`)

Word-level arithmetic is over `Nat` reduced modulo `2 ^ 32`. -/

/-- Right-rotation of a 32-bit word. -/
def rotr32 (x n : Nat) : Nat :=
  ((x >>> n) ||| (x <<< (32 - n))) % 4294967296

/-- The 64 SHA-256 round constants. -/
def sha256K : List Nat :=
  [1116352408, 1899447441, 3049323471, 3921009573, 961987163,
   1508970993, 2453635748, 2870763221, 3624381080, 310598401,
   607225278, 1426881987, 1925078388, 2162078206, 2614888103,
   3248222580, 3835390401, 4022224774, 264347078, 604807628,
   770255983, 1249150122, 1555081692, 1996064986, 2554220882,
   2821834349, 2952996808, 3210313671, 3336571891, 3584528711,
   113926993, 338241895, 666307205, 773529912, 1294757372,
   1396182291, 1695183700, 1986661051, 2177026350, 2456956037,
   2730485921, 2820302411, 3259730800, 3345764771, 3516065817,
   3600352804, 4094571909, 275423344, 430227734, 506948616,
   659060556, 883997877, 958139571, 1322822218, 1537002063,
   1747873779, 1955562222, 2024104815, 2227730452, 2361852424,
   2428436474, 2756734187, 3204031479, 3329325298]

/-- The initial SHA-256 hash state. -/
def sha256H0 : List Nat :=
  [1779033703, 3144134277, 1013904242, 2773480762,
   1359893119, 2600822924, 528734635, 1541459225]

/-- Expand a 64-byte block into the 64-word message schedule. -/
def msgSchedule (block : List Nat) : Array Nat :=
  let w16 : Array Nat := (((List.range 16).map fun i =>
    ((block.getD (4 * i) 0) <<< 24) ||| ((block.getD (4 * i + 1) 0) <<< 16) |||
      ((block.getD (4 * i + 2) 0) <<< 8) ||| block.getD (4 * i + 3) 0)).toArray
  (List.range 48).foldl (fun w j =>
    let i := j + 16
    let wa := w.getD (i - 15) 0
    let wb := w.getD (i - 2) 0
    let s0 := rotr32 wa 7 ^^^ rotr32 wa 18 ^^^ (wa >>> 3)
    let s1 := rotr32 wb 17 ^^^ rotr32 wb 19 ^^^ (wb >>> 10)
    w.push ((w.getD (i - 16) 0 + s0 + w.getD (i - 7) 0 + s1) % 4294967296)) w16

/-- One SHA-256 compression round over an eight-word state. -/
def sha256Round (w : Array Nat)
    (st : Nat × Nat × Nat × Nat × Nat × Nat × Nat × Nat) (i : Nat) :
    Nat × Nat × Nat × Nat × Nat × Nat × Nat × Nat :=
  let (a, b, c, d, e, f, g, h) := st
  let bigS1 := rotr32 e 6 ^^^ rotr32 e 11 ^^^ rotr32 e 25
  let ch := (e &&& f) ^^^ ((4294967295 ^^^ e) &&& g)
  let temp1 := (h + bigS1 + ch + sha256K.getD i 0 + w.getD i 0) % 4294967296
  let bigS0 := rotr32 a 2 ^^^ rotr32 a 13 ^^^ rotr32 a 22
  let maj := (a &&& b) ^^^ (a &&& c) ^^^ (b &&& c)
  let temp2 := (bigS0 + maj) % 4294967296
  ((temp1 + temp2) % 4294967296, a, b, c, (d + temp1) % 4294967296, e, f, g)

/-- Compress one 64-byte block into the running hash state. -/
def sha256Compress (hs : List Nat) (block : List Nat) : List Nat :=
  let w := msgSchedule block
  let init := (hs.getD 0 0, hs.getD 1 0, hs.getD 2 0, hs.getD 3 0,
               hs.getD 4 0, hs.getD 5 0, hs.getD 6 0, hs.getD 7 0)
  let (a, b, c, d, e, f, g, h) := (List.range 64).foldl (sha256Round w) init
  [(hs.getD 0 0 + a) % 4294967296, (hs.getD 1 0 + b) % 4294967296,
   (hs.getD 2 0 + c) % 4294967296, (hs.getD 3 0 + d) % 4294967296,
   (hs.getD 4 0 + e) % 4294967296, (hs.getD 5 0 + f) % 4294967296,
   (hs.getD 6 0 + g) % 4294967296, (hs.getD 7 0 + h) % 4294967296]

/-- SHA-256 padding: append `0x80`, zeros to 56 mod 64, then the bit
length as eight big-endian bytes. -/
def sha256Pad (msg : List Nat) : List Nat :=
  let bitLen := 8 * msg.length
  let z := (120 - (msg.length + 1) % 64) % 64
  msg ++ [0x80] ++ List.replicate z 0 ++
    (List.range 8).map fun i => (bitLen >>> (8 * (7 - i))) % 256

/-- Fold the compression function over consecutive 64-byte blocks. -/
def sha256Blocks (hs : List Nat) (bytes : List Nat) : List Nat :=
  if hb : bytes = [] then hs
  else sha256Blocks (sha256Compress hs (bytes.take 64)) (bytes.drop 64)
termination_by bytes.length
decreasing_by
  simp [List.length_drop]
  have := List.length_pos.mpr hb
  omega

/-- UTF-8 encoding of one character (Python `str.encode()`). -/
def utf8EncodeCharBytes (c : Char) : List Nat :=
  let n := c.toNat
  if n < 0x80 then [n]
  else if n < 0x800 then
    [0xC0 ||| (n >>> 6), 0x80 ||| (n % 64)]
  else if n < 0x10000 then
    [0xE0 ||| (n >>> 12), 0x80 ||| ((n >>> 6) % 64), 0x80 ||| (n % 64)]
  else
    [0xF0 ||| (n >>> 18), 0x80 ||| ((n >>> 12) % 64), 0x80 ||| ((n >>> 6) % 64),
     0x80 ||| (n % 64)]

/-- UTF-8 encoding of a string as a byte list. -/
def utf8Bytes (s : String) : List Nat :=
  (s.data.map utf8EncodeCharBytes).flatten

/-- One lowercase-hex digit pair group: eight hex digits of a 32-bit word. -/
def hex8 (n : Nat) : List Char :=
  (List.range 8).map fun i => Nat.digitChar ((n >>> (28 - 4 * i)) % 16)

/-- Model of `hashlib.sha256(data).hexdigest()`. -/
def sha256Hex (msg : List Nat) : String :=
  String.mk (((sha256Blocks sha256H0 (sha256Pad msg)).map hex8).flatten)

/-! ## `CacheStore` (`memory/cache_store.py`)

The in-memory map is `List (String × String)`; the backing file is a
`FileContent` (absent, corrupt — i.e. `json.JSONDecodeError` on load —
or a well-formed serialized map). -/

/-- Contents of a `CacheStore`'s backing file. -/
inductive FileContent : Type
  | absent : FileContent
  | corrupt : FileContent
  | map : List (String × String) → FileContent
deriving DecidableEq

namespace CacheStore

/-- Model of `CacheStore._load_cache`: parse the backing file if it exists; a
missing file or a JSON decode error yields the empty map. -/
def _load_cache : FileContent → List (String × String)
  | .absent => []
  | .corrupt => []
  | .map m => m

/-- Model of `CacheStore.compute_hash`: SHA-256 hex digest of the UTF-8 bytes of
`f"{agent_name}::{task}"`. -/
def compute_hash (task agentName : String) : String :=
  sha256Hex (utf8Bytes (agentName ++ "::" ++ task))

/-- Model of `CacheStore.get`. -/
def get (cache : List (String × String)) (task agentName : String) : Option String :=
  dictGet (compute_hash task agentName) cache

/-- Model of `CacheStore.save`: update the in-memory map and atomically rewrite
the backing file with the serialized map (`_save_cache`). -/
def save (cache : List (String × String)) (task agentName result : String) :
    List (String × String) × FileContent :=
  let c := dictInsert (compute_hash task agentName) result cache
  (c, .map c)

/-- Model of `CacheStore.has`. -/
def has (cache : List (String × String)) (task agentName : String) : Bool :=
  (dictGet (compute_hash task agentName) cache).isSome

/-- Model of `CacheStore.remove`. -/
def remove (cache : List (String × String)) (task agentName : String) :
    Bool × List (String × String) × FileContent :=
  let key := compute_hash task agentName
  match dictGet key cache with
  | some _ =>
    let c := dictEraseAll key cache
    (true, c, .map c)
  | none => (false, cache, .map cache)

end CacheStore

/-- C2: saving a value under `(namespace, content)` and reading it back
returns exactly that value, and after a simulated restart (a fresh
`CacheStore` whose `_load_cache` reparses the file `save` wrote) the
read still returns that value. -/
theorem cache_store_roundtrip (cache : List (String × String))
    (task agentName value : String) :
    CacheStore.get (CacheStore.save cache task agentName value).1 task agentName
        = some value ∧
    CacheStore.get
        (CacheStore._load_cache (CacheStore.save cache task agentName value).2)
        task agentName = some value := by
  constructor
  · exact dictGet_insert_self _ _ _
  · exact dictGet_insert_self _ _ _

/-! ## Cache registry (`memory/cache_manager.py`)

Python object identity of `CacheStore` instances is modelled by a
numeric instance id: `register_cache` allocates a fresh id when it
constructs a new store and returns the recorded id otherwise, so
"reference-equal" is "equal id".  The module-level `_shared_cache` is
instance `0`, registered under `"default"` at import time. -/

/-- The registry: aliasName → `CacheStore` instance id, plus the next fresh
instance id. -/
structure CacheRegistry : Type where
  entries : List (String × Nat)
  nextId : Nat
deriving DecidableEq

/-- The registry at module import: `{"default": _shared_cache}`. -/
def initRegistry : CacheRegistry := ⟨[("default", 0)], 1⟩

/-- Model of `register_cache`: return the existing instance unchanged if the
aliasName is present, else construct a new `CacheStore` and record it. -/
def register_cache (r : CacheRegistry) (aliasName : String) : Nat × CacheRegistry :=
  match dictGet aliasName r.entries with
  | some id => (id, r)
  | none => (r.nextId, ⟨r.entries ++ [(aliasName, r.nextId)], r.nextId + 1⟩)

/-- Model of `unregister_cache`: refuse for `"default"`, else delete the aliasName if
present and report whether a deletion happened. -/
def unregister_cache (r : CacheRegistry) (aliasName : String) : Bool × CacheRegistry :=
  if aliasName = "default" then (false, r)
  else
    match dictGet aliasName r.entries with
    | some _ => (true, ⟨dictEraseAll aliasName r.entries, r.nextId⟩)
    | none => (false, r)

/-- Model of `get_agent_cache`: the registered store for the name, else the
module-level `_shared_cache` (instance `0`). -/
def get_agent_cache (r : CacheRegistry) (agentName : String) : Nat :=
  match dictGet agentName r.entries with
  | some id => id
  | none => 0

theorem dictGet_append_self {β : Type} (k : String) (v : β) (l : List (String × β))
    (h : dictGet k l = none) : dictGet k (l ++ [(k, v)]) = some v := by
  induction l with
  | nil => simp [dictGet]
  | cons q rest ih =>
    obtain ⟨k₁, v₁⟩ := q
    by_cases hk : k₁ = k
    · simp [dictGet, hk] at h
    · simp [dictGet, hk] at h ⊢
      exact ih h

/-- C4: `register_cache` is idempotent — the second call with the same
aliasName returns the same instance (same id), leaving the registry
unchanged; `unregister_cache "default"` always returns `false` and
changes nothing, so the default store stays reachable through
`get_agent_cache` (and in the import-time registry it is instance 0,
the shared store). -/
theorem cache_registry_idempotent (r : CacheRegistry) (aliasName : String) :
    register_cache (register_cache r aliasName).2 aliasName = register_cache r aliasName ∧
    unregister_cache r "default" = (false, r) ∧
    get_agent_cache (unregister_cache r "default").2 "default"
        = get_agent_cache r "default" ∧
    get_agent_cache initRegistry "default" = 0 := by
  refine ⟨?_, rfl, rfl, rfl⟩
  unfold register_cache
  cases h : dictGet aliasName r.entries with
  | some id => simp [h]
  | none => simp [dictGet_append_self aliasName r.nextId r.entries h]

/-! ## Ephemeral TTL cache (`core/data_pipeline/ingestion/opencti/cache.py`)

The module-level state is the pair of dicts `_data_cache` and
`_cache_expiry`; `time.time()` instants and TTLs are modelled as
integers.  Values (`List[Dict[str, Any]]` result lists) are an opaque
type parameter. -/

/-- The pair of module-level dicts `_data_cache` / `_cache_expiry`. -/
structure TTLCacheState (α : Type) : Type where
  dataCache : List (String × α)
  cacheExpiry : List (String × Int)

/-- Model of `get_from_cache`: a hit only when the key is present in
`_data_cache` and `current_time < _cache_expiry.get(cache_key, 0)`. -/
def get_from_cache {α : Type} (c : TTLCacheState α) (cacheKey : String)
    (now : Int) (useCache : Bool) : Option α :=
  if useCache then
    match dictGet cacheKey c.dataCache with
    | some v => if now < (dictGet cacheKey c.cacheExpiry).getD 0 then some v else none
    | none => none
  else none

/-- Model of `store_in_cache`: overwrite the value and set
`_cache_expiry[key] = time.time() + cache_ttl`. -/
def store_in_cache {α : Type} (c : TTLCacheState α) (cacheKey : String)
    (data : α) (now : Int) (useCache : Bool) (cacheTtl : Int) : TTLCacheState α :=
  if useCache then
    ⟨dictInsert cacheKey data c.dataCache,
     dictInsert cacheKey (now + cacheTtl) c.cacheExpiry⟩
  else c

/-- Model of `invalidate_cache_prefix`: collect the keys of `_data_cache` that
start with the given string, then delete each from both dicts. -/
def invalidateCachePrefix {α : Type} (c : TTLCacheState α) (pfx : String) :
    TTLCacheState α :=
  let keysToDelete := (c.dataCache.map Prod.fst).filter fun k => k.startsWith pfx
  ⟨c.dataCache.filter fun q => !keysToDelete.contains q.1,
   c.cacheExpiry.filter fun q => !keysToDelete.contains q.1⟩

/-- C5: the TTL cache returns a stored value exactly when the key is
present and the current time is strictly before the entry's expiry
(an absent expiry defaults to 0); in particular after `store_in_cache`
the value is physically present at every later time, yet `get` is a
miss from the expiry instant `now + ttl` on. -/
theorem ttl_cache_get_expiry {α : Type} (c : TTLCacheState α)
    (cacheKey : String) (now : Int) (v : α) :
    (get_from_cache c cacheKey now true = some v ↔
      dictGet cacheKey c.dataCache = some v ∧
        now < (dictGet cacheKey c.cacheExpiry).getD 0) ∧
    (∀ (data : α) (now₀ ttl t : Int),
      get_from_cache (store_in_cache c cacheKey data now₀ true ttl) cacheKey t true
        = if t < now₀ + ttl then some data else none) ∧
    (∀ (data : α) (now₀ ttl : Int),
      dictGet cacheKey (store_in_cache c cacheKey data now₀ true ttl).dataCache
        = some data) := by
  refine ⟨?_, ?_, ?_⟩
  · unfold get_from_cache
    cases hd : dictGet cacheKey c.dataCache with
    | some w =>
      by_cases ht : now < (dictGet cacheKey c.cacheExpiry).getD 0
      · simp [ht]
      · simp [ht]
    | none => simp
  · intro data now₀ ttl t
    simp only [store_in_cache, get_from_cache, if_true]
    rw [dictGet_insert_self, dictGet_insert_self]
    by_cases ht : t < now₀ + ttl
    · simp [ht]
    · simp [ht]
  · intro data now₀ ttl
    simp only [store_in_cache, if_true]
    exact dictGet_insert_self _ _ _

theorem dictGet_isSome_iff {β : Type} {k : String} {l : List (String × β)} :
    (dictGet k l).isSome = true ↔ k ∈ l.map Prod.fst := by
  induction l with
  | nil => simp [dictGet]
  | cons q rest ih =>
    obtain ⟨k₁, v₁⟩ := q
    by_cases hk : k₁ = k
    · simp [dictGet, hk]
    · have : ¬ k = k₁ := fun h => hk h.symm
      simp [dictGet, hk, ih, this]

/-- C6: `invalidate_cache_prefix` removes exactly the cache entries
whose key starts with the given string, together with their expiry
timestamps; every key that does not start with the string keeps its
value and its expiry unchanged.  (An expiry timestamp is removed for a
key only if that key is actually present in `_data_cache`, since the
keys to delete are collected from `_data_cache`.) -/
theorem ttl_cache_invalidate_exact {α : Type} (c : TTLCacheState α)
    (pfx k : String) :
    dictGet k (invalidateCachePrefix c pfx).dataCache
        = (if k.startsWith pfx then none else dictGet k c.dataCache) ∧
    dictGet k (invalidateCachePrefix c pfx).cacheExpiry
        = (if k.startsWith pfx && (dictGet k c.dataCache).isSome then none
           else dictGet k c.cacheExpiry) := by
  have hcontains : ∀ kk : String,
      ((c.dataCache.map Prod.fst).filter fun s => s.startsWith pfx).contains kk = true
        ↔ (kk ∈ c.dataCache.map Prod.fst ∧ kk.startsWith pfx = true) := by
    intro kk
    constructor
    · intro h
      exact List.mem_filter.mp (List.elem_iff.mp h)
    · intro h
      exact List.elem_iff.mpr (List.mem_filter.mpr h)
  have hmem_of : ∀ v : α, (k, v) ∈ c.dataCache → k ∈ c.dataCache.map Prod.fst :=
    fun v hv => List.mem_map.mpr ⟨(k, v), hv, rfl⟩
  simp only [invalidateCachePrefix]
  constructor
  · by_cases hs : k.startsWith pfx
    · rw [if_pos hs]
      refine dictGet_filter_none ?_
      intro v hv
      have hk : ((c.dataCache.map Prod.fst).filter
          fun s => s.startsWith pfx).contains k = true :=
        (hcontains k).mpr ⟨hmem_of v hv, hs⟩
      simp only [hk, Bool.not_true]
    · rw [if_neg hs]
      refine dictGet_filter_all ?_
      intro v _
      have hk : ((c.dataCache.map Prod.fst).filter
          fun s => s.startsWith pfx).contains k = false := by
        cases h : ((c.dataCache.map Prod.fst).filter
            fun s => s.startsWith pfx).contains k with
        | false => rfl
        | true => exact absurd ((hcontains k).mp h).2 hs
      simp only [hk, Bool.not_false]
  · by_cases hcond : (k.startsWith pfx && (dictGet k c.dataCache).isSome) = true
    · rw [if_pos hcond]
      rw [Bool.and_eq_true] at hcond
      refine dictGet_filter_none ?_
      intro v _
      have hk : ((c.dataCache.map Prod.fst).filter
          fun s => s.startsWith pfx).contains k = true :=
        (hcontains k).mpr ⟨dictGet_isSome_iff.mp hcond.2, hcond.1⟩
      simp only [hk, Bool.not_true]
    · rw [if_neg hcond]
      refine dictGet_filter_all ?_
      intro v _
      have hk : ((c.dataCache.map Prod.fst).filter
          fun s => s.startsWith pfx).contains k = false := by
        cases h : ((c.dataCache.map Prod.fst).filter
            fun s => s.startsWith pfx).contains k with
        | false => rfl
        | true =>
          rcases (hcontains k).mp h with ⟨hm, hsw⟩
          exact absurd
            (by simp [hsw, dictGet_isSome_iff.mpr hm] :
              (k.startsWith pfx && (dictGet k c.dataCache).isSome) = true) hcond
      simp only [hk, Bool.not_false]

/-! ## Token-usage ledger (`core/token_usage/`)

`TokenStats` records carry `Int` counters and a `last_updated`
timestamp: `some t` models an ISO-8601 string that
`datetime.fromisoformat` parses to instant `t` (integer seconds), and
`none` models a missing or unparseable `last_updated` field
(`KeyError` / `ValueError` in `TokenUsageStorage.prune_expired`).
The singleton's mutable `self.usage` dict is the explicit state; the
disk write in `_save_usage` always stores the current state and no
claim reads it back, so it is not threaded separately.  `logger`
warnings and errors carry no state. -/

/-- A `TokenStats` record (`models.TokenStats`). -/
structure TokenStats : Type where
  input : Int
  output : Int
  total : Int
  lastUpdated : Option Int
deriving DecidableEq

/-- A value passed to `validate_token_counts`: either something
`int()` accepts (modelled by its integer value) or something it
rejects with `ValueError`/`TypeError`. -/
inductive PyNum : Type
  | num : Int → PyNum
  | nonNum : PyNum
deriving DecidableEq

/-- Quota configuration: `cfg.envLimit a` is the parsed value of the
`f"{a.upper()}_TOKEN_LIMIT"` environment variable (`none` when unset
or unparseable), `cfg.defaultLimit` is `AGENT_DEFAULT_TOKEN_LIMIT`,
and `cfg.systemLimit` is `SYSTEM_DAILY_TOKEN_LIMIT`. -/
structure LimitConfig : Type where
  envLimit : String → Option Int
  defaultLimit : Int
  systemLimit : Int

/-- A character allowed by the character class `[a-zA-Z0-9_-]`. -/
def isSafeChar (c : Char) : Bool :=
  let n := c.toNat
  (97 ≤ n && n ≤ 122) || (65 ≤ n && n ≤ 90) || (48 ≤ n && n ≤ 57) ||
    n == 95 || n == 45

/-- Python `re.match(r'^[a-zA-Z0-9_-]+$', s)` as a Boolean: a nonempty
run of safe characters must cover the whole string, except that `re`'s
`$` also matches just before a single newline at the very end, so a
trailing `"\n"` is tolerated. -/
def matchesSafePattern (s : String) : Bool :=
  let cs := s.data
  let core := if cs.getLast? = some (Char.ofNat 10) then cs.dropLast else cs
  !core.isEmpty && core.all isSafeChar

/-- Model of `validators.validate_agent_name`: falsy or non-matching names are
rejected with a warning (non-string inputs, also rejected, are outside
this model's input type). -/
def validate_agent_name (agentName : String) : Bool :=
  if agentName = "" then false
  else matchesSafePattern agentName

/-- Model of `validators.validate_token_counts`: a count `int()` rejects zeroes
BOTH fields; otherwise each negative field is clamped to 0
independently. -/
def validate_token_counts : PyNum → PyNum → Int × Int
  | .num i, .num o =>
    if i < 0 || o < 0 then (max 0 i, max 0 o) else (i, o)
  | _, _ => (0, 0)

/-- Model of `token_usage.get_agent_limit`: the per-agent environment override
if it parses and is positive, else `AGENT_DEFAULT_TOKEN_LIMIT`. -/
def get_agent_limit (cfg : LimitConfig) (agentName : String) : Int :=
  match cfg.envLimit agentName with
  | some l => if l ≤ 0 then cfg.defaultLimit else l
  | none => cfg.defaultLimit

/-- The rolling window of `TokenUsageStorage.prune_expired`
(`window_hours = 24`), in seconds. -/
def windowSeconds : Int := 86400

/-- Model of `TokenUsageStorage.prune_expired`: keep a record iff its
`last_updated` parses and is at least `now - 24h`; records with a
missing or unparseable timestamp are dropped with a warning. -/
def prune_expired (now : Int) (data : List (String × TokenStats)) :
    List (String × TokenStats) :=
  data.filter fun p =>
    match p.2.lastUpdated with
    | some t => decide (now - windowSeconds ≤ t)
    | none => false

/-- Model of `TokenUsage.get_usage`: the agent's record, or a zeroed record with
a fresh timestamp when the name is invalid or unknown. -/
def get_usage (usage : List (String × TokenStats)) (agentName : String)
    (now : Int) : TokenStats :=
  if validate_agent_name agentName then
    match dictGet agentName usage with
    | some st => st
    | none => ⟨0, 0, 0, some now⟩
  else ⟨0, 0, 0, some now⟩

/-- Model of `TokenUsage.get_total_usage`: prune (mutating `self.usage`, which
is the second component), then sum `input` and `output` over the
remaining records. -/
def get_total_usage (usage : List (String × TokenStats)) (now : Int) :
    TokenStats × List (String × TokenStats) :=
  let pruned := prune_expired now usage
  let totalInput := (pruned.map fun p => p.2.input).sum
  let totalOutput := (pruned.map fun p => p.2.output).sum
  (⟨totalInput, totalOutput, totalInput + totalOutput, some now⟩, pruned)

/-- Outcome of a `log_tokens` call: normal return, the silent no-op
return on an invalid name, or the two distinguishable
`Exception("... limit exceeded ...")` raises. -/
inductive LogResult : Type
  | ok : LogResult
  | invalidName : LogResult
  | agentQuotaExceeded : LogResult
  | systemQuotaExceeded : LogResult
deriving DecidableEq

/-- Model of `TokenUsage.log_tokens`: validate the name (silent no-op on
failure), normalize the counts, prune expired records, enforce the
per-agent limit then the system-wide limit (each raising without
applying the new counts), then accumulate into the agent's record,
refresh `last_updated`, and persist.  The 80%-of-limit warnings do not
affect state. -/
def log_tokens (cfg : LimitConfig) (usage : List (String × TokenStats))
    (agentName : String) (inputTokens outputTokens : PyNum) (now : Int) :
    LogResult × List (String × TokenStats) :=
  if validate_agent_name agentName then
    let counts := validate_token_counts inputTokens outputTokens
    let totalNew := counts.1 + counts.2
    let s₁ := prune_expired now usage
    let agentTotal := (get_usage s₁ agentName now).total + totalNew
    let agentLimit := get_agent_limit cfg agentName
    if agentLimit < agentTotal then (.agentQuotaExceeded, s₁)
    else
      let sys := get_total_usage s₁ now
      let systemTotal := sys.1.total + totalNew
      if cfg.systemLimit < systemTotal then (.systemQuotaExceeded, sys.2)
      else
        let st₀ := match dictGet agentName sys.2 with
          | some st => st
          | none => (⟨0, 0, 0, some now⟩ : TokenStats)
        let st₁ : TokenStats :=
          ⟨st₀.input + counts.1, st₀.output + counts.2,
           st₀.total + totalNew, some now⟩
        (.ok, dictInsert agentName st₁ sys.2)
  else (.invalidName, usage)

theorem filter_self_idem {γ : Type} (p : γ → Bool) (l : List γ) :
    (l.filter p).filter p = l.filter p := by
  induction l with
  | nil => rfl
  | cons a t ih =>
    by_cases h : p a
    · simp [List.filter, h, ih]
    · simp [List.filter, Bool.of_not_eq_true h, ih]

/-- Applying `get_total_usage` to an already-pruned ledger leaves it
unchanged, so the second prune inside `log_tokens` is the identity. -/
theorem prune_expired_idem (now : Int) (usage : List (String × TokenStats)) :
    prune_expired now (prune_expired now usage) = prune_expired now usage :=
  filter_self_idem _ usage

/-- C1 (counterexample to the claim as stated): with the default
per-agent limit 10, an agent whose stored record is
`{input 5, output 0, total 5}` but 100000 seconds stale, and a log of
20 new tokens, the call does fail with the agent-quota error — yet the
agent's stored totals are NOT unchanged from before the call: the
stale record is deleted by the pruning that `log_tokens` runs before
the limit check, so the stored total drops from 5 to 0. -/
theorem log_tokens_quota_state_counterexample :
    validate_agent_name "a" = true ∧
    validate_token_counts (.num 20) (.num 0) = (20, 0) ∧
    (log_tokens ⟨fun _ => none, 10, 100⟩ [("a", ⟨5, 0, 5, some 0⟩)] "a"
        (.num 20) (.num 0) 100000).1 = .agentQuotaExceeded ∧
    (get_usage [("a", ⟨5, 0, 5, some 0⟩)] "a" 100000).total = 5 ∧
    (get_usage (log_tokens ⟨fun _ => none, 10, 100⟩ [("a", ⟨5, 0, 5, some 0⟩)]
        "a" (.num 20) (.num 0) 100000).2 "a" 100000).total = 0 := by
  decide

/-- C1 (amended): for a valid identity and validated (non-negative)
counts, a `log_tokens` call whose new amount would push the identity's
post-pruning rolling total strictly above its limit fails with the
agent-quota error, and a call that passes the per-identity check but
would push the system-wide total strictly above the system limit fails
with the system-quota error; in both cases the resulting state is
exactly the pruned previous state — no new counts are applied, and any
record still inside the 24-hour window (in particular the identity's
own, when fresh) is unchanged from before the call. -/
theorem log_tokens_quota_rejection (cfg : LimitConfig)
    (usage : List (String × TokenStats)) (agentName : String) (i o now : Int)
    (hname : validate_agent_name agentName = true) (hi : 0 ≤ i) (ho : 0 ≤ o) :
    (get_agent_limit cfg agentName
        < (get_usage (prune_expired now usage) agentName now).total + (i + o) →
      log_tokens cfg usage agentName (.num i) (.num o) now
        = (.agentQuotaExceeded, prune_expired now usage)) ∧
    ((get_usage (prune_expired now usage) agentName now).total + (i + o)
        ≤ get_agent_limit cfg agentName →
      cfg.systemLimit
          < (get_total_usage (prune_expired now usage) now).1.total + (i + o) →
      log_tokens cfg usage agentName (.num i) (.num o) now
        = (.systemQuotaExceeded, prune_expired now usage)) ∧
    (∀ st t, dictGet agentName usage = some st → st.lastUpdated = some t →
      now - windowSeconds ≤ t →
      dictGet agentName (prune_expired now usage) = some st) := by
  have hcounts : validate_token_counts (.num i) (.num o) = (i, o) := by
    simp [validate_token_counts, not_lt.mpr hi, not_lt.mpr ho]
  refine ⟨?_, ?_, ?_⟩
  · intro h
    simp only [log_tokens, hname, if_true, hcounts]
    rw [if_pos h]
  · intro hle hsys
    simp only [log_tokens, hname, if_true, hcounts]
    rw [if_neg (not_lt.mpr hle), if_pos hsys]
    simp only [get_total_usage]
    rw [prune_expired_idem]
  · intro st t hst hlast hfresh
    simp only [prune_expired]
    exact dictGet_filter_keep hst (by simp [hlast, hfresh])

theorem log_tokens_quota_rejection_witness :
    validate_agent_name "a" = true ∧ (0 : Int) ≤ 20 ∧ (0 : Int) ≤ 0 ∧
    log_tokens ⟨fun _ => none, 10, 100⟩ [] "a" (.num 20) (.num 0) 0
      = (.agentQuotaExceeded, []) := by
  refine ⟨by decide, by decide, by decide, ?_⟩
  exact (log_tokens_quota_rejection ⟨fun _ => none, 10, 100⟩ [] "a" 20 0 0
    (by decide) (by decide) (by decide)).1 (by decide)

/-- If the (unique) record of `agentName` fails the pruning predicate,
then pruning the ledger without that record gives the same result as
pruning the full ledger, and the pruned ledger has no binding for
`agentName`. -/
theorem prune_expired_drops (usage : List (String × TokenStats))
    (agentName : String) (st : TokenStats) (now : Int)
    (hnd : (usage.map Prod.fst).Nodup)
    (h1 : dictGet agentName usage = some st)
    (hdrop : (match st.lastUpdated with
      | some t => decide (now - windowSeconds ≤ t)
      | none => false) = false) :
    prune_expired now (dictEraseAll agentName usage) = prune_expired now usage ∧
    dictGet agentName (prune_expired now usage) = none := by
  constructor
  · simp only [prune_expired, dictEraseAll]
    rw [List.filter_filter]
    apply List.filter_congr
    intro x hx
    obtain ⟨x₁, x₂⟩ := x
    by_cases hxk : x₁ = agentName
    · subst hxk
      have hx2 : x₂ = st := dictGet_unique hnd h1 hx
      subst hx2
      simp only [hdrop, Bool.false_and]
    · simp [hxk]
  · simp only [prune_expired]
    refine dictGet_filter_none ?_
    intro v hv
    have hveq : v = st := dictGet_unique hnd h1 hv
    subst hveq
    exact hdrop

/-- C3: a record whose `last_updated` is more than 24 hours before the
current time contributes nothing to `get_total_usage` — the returned
sums equal those of the ledger with that record deleted — and a
subsequent `get_usage` for that identity yields the zeroed record
`{input 0, output 0, total 0}` (with a fresh timestamp). -/
theorem usage_pruning_excludes_expired (usage : List (String × TokenStats))
    (agentName : String) (st : TokenStats) (t now now₂ : Int)
    (hnd : (usage.map Prod.fst).Nodup)
    (h1 : dictGet agentName usage = some st)
    (h2 : st.lastUpdated = some t)
    (h3 : t < now - windowSeconds) :
    (get_total_usage usage now).1
        = (get_total_usage (dictEraseAll agentName usage) now).1 ∧
    get_usage (get_total_usage usage now).2 agentName now₂
        = ⟨0, 0, 0, some now₂⟩ := by
  have hdrop : (match st.lastUpdated with
      | some u => decide (now - windowSeconds ≤ u)
      | none => false) = false := by
    rw [h2]
    exact decide_eq_false (not_le.mpr h3)
  obtain ⟨heq, hnone⟩ := prune_expired_drops usage agentName st now hnd h1 hdrop
  constructor
  · simp only [get_total_usage, heq]
  · simp only [get_total_usage, get_usage]
    by_cases hv : validate_agent_name agentName
    · simp [hv, hnone]
    · simp [hv]

theorem usage_pruning_excludes_expired_witness :
    ([("a", TokenStats.mk 1 2 3 (some 0))].map Prod.fst).Nodup ∧
    dictGet "a" [("a", TokenStats.mk 1 2 3 (some 0))]
      = some (TokenStats.mk 1 2 3 (some 0)) ∧
    (0 : Int) < 100000 - windowSeconds ∧
    (get_total_usage [("a", TokenStats.mk 1 2 3 (some 0))] 100000).1
        = (get_total_usage (dictEraseAll "a" [("a", TokenStats.mk 1 2 3 (some 0))])
            100000).1 ∧
    get_usage (get_total_usage [("a", TokenStats.mk 1 2 3 (some 0))] 100000).2
        "a" 5 = ⟨0, 0, 0, some 5⟩ := by
  refine ⟨by decide, by decide, by decide, ?_⟩
  exact usage_pruning_excludes_expired [("a", TokenStats.mk 1 2 3 (some 0))]
    "a" (TokenStats.mk 1 2 3 (some 0)) 0 100000 5
    (by decide) (by decide) (by decide) (by decide)

/-- C10: during pruning, a record whose `last_updated` is missing or
does not parse as ISO-8601 (modelled as `lastUpdated = none`) is
dropped from the ledger regardless of the current time — it disappears
from the pruned map and its accumulated counts vanish from the
`get_total_usage` sums, exactly as if it were expired. -/
theorem prune_drops_unparseable_timestamp (usage : List (String × TokenStats))
    (agentName : String) (st : TokenStats) (now : Int)
    (hnd : (usage.map Prod.fst).Nodup)
    (h1 : dictGet agentName usage = some st)
    (h2 : st.lastUpdated = none) :
    dictGet agentName (prune_expired now usage) = none ∧
    (get_total_usage usage now).1
        = (get_total_usage (dictEraseAll agentName usage) now).1 := by
  have hdrop : (match st.lastUpdated with
      | some u => decide (now - windowSeconds ≤ u)
      | none => false) = false := by
    simp [h2]
  obtain ⟨heq, hnone⟩ := prune_expired_drops usage agentName st now hnd h1 hdrop
  exact ⟨hnone, by simp only [get_total_usage, heq]⟩

theorem prune_drops_unparseable_timestamp_witness :
    ([("a", TokenStats.mk 7 1 8 none)].map Prod.fst).Nodup ∧
    dictGet "a" [("a", TokenStats.mk 7 1 8 none)]
      = some (TokenStats.mk 7 1 8 none) ∧
    dictGet "a" (prune_expired 100 [("a", TokenStats.mk 7 1 8 none)]) = none ∧
    (get_total_usage [("a", TokenStats.mk 7 1 8 none)] 100).1
        = (get_total_usage (dictEraseAll "a" [("a", TokenStats.mk 7 1 8 none)])
            100).1 := by
  refine ⟨by decide, by decide, ?_⟩
  have h := prune_drops_unparseable_timestamp [("a", TokenStats.mk 7 1 8 none)]
    "a" (TokenStats.mk 7 1 8 none) 100 (by decide) (by decide) (by decide)
  exact ⟨h.1, h.2⟩

/-- A configuration with the shipped defaults:
`AGENT_DEFAULT_TOKEN_LIMIT = 10000`,
`SYSTEM_DAILY_TOKEN_LIMIT = 100000`, no environment overrides. -/
def defaultCfg : LimitConfig := ⟨fun _ => none, 10000, 100000⟩

/-- C7 (code-bug evidence): `"abc\n"` contains a character outside
`[a-zA-Z0-9_-]`, yet `validate_agent_name` accepts it — Python's `$`
also matches just before a single trailing newline — so `log_tokens`
records usage under the unsafe name instead of being a no-op, against
the validator's own stated purpose.  The remaining conjuncts confirm
the claim's correct parts: a genuinely non-matching name is a silent
no-op, a non-numeric count zeroes both fields, and negative counts are
clamped to 0 per field. -/
theorem validate_agent_name_trailing_newline :
    ("abc\n".data.all isSafeChar) = false ∧
    validate_agent_name "abc\n" = true ∧
    log_tokens defaultCfg [] "abc\n" (.num 1) (.num 2) 0
      = (.ok, [("abc\n", ⟨1, 2, 3, some 0⟩)]) ∧
    validate_agent_name "ab c" = false ∧
    log_tokens defaultCfg [] "ab c" (.num 1) (.num 2) 0 = (.invalidName, []) ∧
    validate_token_counts .nonNum (.num 5) = (0, 0) ∧
    validate_token_counts (.num 5) .nonNum = (0, 0) ∧
    validate_token_counts (.num (-3)) (.num 7) = (0, 7) ∧
    validate_token_counts (.num 3) (.num (-7)) = (3, 0) := by
  decide

/-- The ledger invariant of the spec: every stored record satisfies
`total == input + output`. -/
def WFUsage (usage : List (String × TokenStats)) : Prop :=
  ∀ p ∈ usage, p.2.total = p.2.input + p.2.output

/-- C8: `total == input + output` holds in the empty ledger, is
preserved by every `log_tokens` call (in particular by successful
ones), holds for every record observable through `get_usage`, and
holds for the sums returned by `get_total_usage`. -/
theorem token_total_invariant :
    WFUsage [] ∧
    (∀ cfg usage agentName i o now, WFUsage usage →
      WFUsage (log_tokens cfg usage agentName i o now).2) ∧
    (∀ usage agentName now, WFUsage usage →
      (get_usage usage agentName now).total
        = (get_usage usage agentName now).input
            + (get_usage usage agentName now).output) ∧
    (∀ usage now,
      (get_total_usage usage now).1.total
        = (get_total_usage usage now).1.input
            + (get_total_usage usage now).1.output) := by
  have hfilter : ∀ (usage : List (String × TokenStats)) (p : String × TokenStats → Bool),
      WFUsage usage → WFUsage (usage.filter p) :=
    fun usage p h q hq => h q (List.mem_filter.mp hq).1
  refine ⟨?_, ?_, ?_, ?_⟩
  · intro p hp
    simp at hp
  · intro cfg usage agentName i o now h
    by_cases hv : validate_agent_name agentName
    · simp only [log_tokens, hv, if_true]
      split
      · exact hfilter _ _ h
      · split
        · simp only [get_total_usage]
          exact hfilter _ _ (hfilter _ _ h)
        · intro p hp
          rcases mem_dictInsert hp with hp' | hp'
          · subst hp'
            have hwf₂ : WFUsage (get_total_usage (prune_expired now usage) now).2 := by
              simp only [get_total_usage]
              exact hfilter _ _ (hfilter _ _ h)
            cases hd : dictGet agentName (get_total_usage (prune_expired now usage) now).2 with
            | some st =>
              have hst : st.total = st.input + st.output := hwf₂ _ (dictGet_mem hd)
              simp only [hd]
              omega
            | none =>
              simp only [hd]
              omega
          · have hwf₂ : WFUsage (get_total_usage (prune_expired now usage) now).2 := by
              simp only [get_total_usage]
              exact hfilter _ _ (hfilter _ _ h)
            exact hwf₂ p hp'
    · simp only [log_tokens, hv, if_false]
      exact h
  · intro usage agentName now h
    by_cases hv : validate_agent_name agentName
    · simp only [get_usage, hv, if_true]
      cases hd : dictGet agentName usage with
      | some st => exact h _ (dictGet_mem hd)
      | none => simp
    · simp [get_usage, hv]
  · intro usage now
    simp [get_total_usage]

theorem token_total_invariant_witness :
    WFUsage [("a", TokenStats.mk 2 3 5 (some 0))] ∧
    WFUsage (log_tokens defaultCfg [("a", TokenStats.mk 2 3 5 (some 0))] "a"
      (.num 1) (.num 2) 7).2 := by
  have hwf : WFUsage [("a", TokenStats.mk 2 3 5 (some 0))] := by
    intro p hp
    rw [List.mem_singleton.mp hp]
    decide
  exact ⟨hwf, token_total_invariant.2.1 defaultCfg _ "a" (.num 1) (.num 2) 7 hwf⟩

/-! ## Token estimator (`core/token_usage/estimator.py`) -/

/-- The `text` argument of `TokenEstimator.estimate`: a string, or a
value of any other type (`isinstance(text, str)` fails). -/
inductive PyText : Type
  | str : String → PyText
  | nonStr : PyText

/-- Model of `TokenEstimator.estimate`: non-strings and the empty string yield 0
before any tokenizer work; otherwise tokenize with the model's encoder
and count (`tok modelName = some enc`, covering the per-model encoder
cache whose entries are deterministic); if obtaining the encoder or
encoding raises for any reason (`tok modelName = none`), fall back to
the character count integer-divided by 4. -/
def estimate (tok : String → Option (String → Nat)) (text : PyText)
    (modelName : String) : Nat :=
  match text with
  | .nonStr => 0
  | .str s =>
    if s = "" then 0
    else
      match tok modelName with
      | some enc => enc s
      | none => s.length / 4

/-- C9: `estimate` always returns a non-negative count (its codomain is
ℕ, stated here over ℤ); non-string and empty inputs give 0 regardless
of the tokenizer (so without invoking it); and whenever tokenization
is unavailable or raises, the result is the character count
integer-divided by 4. -/
theorem estimator_contract (tok : String → Option (String → Nat))
    (modelName : String) :
    (∀ text, (0 : Int) ≤ (estimate tok text modelName : Int)) ∧
    (∀ tok' : String → Option (String → Nat),
      estimate tok' .nonStr modelName = 0) ∧
    (∀ tok' : String → Option (String → Nat),
      estimate tok' (.str "") modelName = 0) ∧
    (tok modelName = none →
      ∀ s, estimate tok (.str s) modelName = s.length / 4) := by
  refine ⟨fun _ => Int.natCast_nonneg _, fun _ => rfl, fun _ => rfl, ?_⟩
  intro h s
  by_cases hs : s = ""
  · subst hs
    simp [estimate]
  · simp [estimate, hs, h]

theorem estimator_contract_witness :
    ((fun _ : String => (none : Option (String → Nat))) "gpt-3.5-turbo"
      = none) ∧
    estimate (fun _ => none) (.str "hello") "gpt-3.5-turbo" = 1 := by
  refine ⟨rfl, ?_⟩
  have h := (estimator_contract (fun _ => none) "gpt-3.5-turbo").2.2.2 rfl "hello"
  rw [h]
  decide
